import Mathlib

/-!
Verification development for the arXiv metadata/search HTTP API server
(`problem1/arxiv_server.py`).  The Python source is shallowly embedded:
strings are lists of characters, JSON documents are an inductive type,
dictionaries are association lists, the request handler is a pure function
from the loaded store and the raw request path to a response, and the
exceptions that can escape startup are an `Except` value.

Modelling scope: text is treated at the level of ASCII code points (the
regexes in the source, `[A-Za-z]+` and `\b`, are ASCII-classified for the
inputs the claims are about; Python's Unicode case folding and multi-byte
percent-decoding are outside the modelled scope and are noted where
relevant).
-/

/-- Strings are modelled as lists of characters. -/
abbrev Str := List Char

/-- The character list of a Lean string literal, used to write concrete
examples. -/
def chars (s : String) : Str := s.data

/-- ASCII letter: the character class of `WORD_RE = re.compile(r"[A-Za-z]+")`. -/
def isAsciiLetter (c : Char) : Bool :=
  (decide ('a' ≤ c) && decide (c ≤ 'z')) || (decide ('A' ≤ c) && decide (c ≤ 'Z'))

/-- Lowercase ASCII letter. -/
def isLowerLetter (c : Char) : Bool :=
  decide ('a' ≤ c) && decide (c ≤ 'z')

/-- ASCII digit. -/
def isAsciiDigit (c : Char) : Bool :=
  decide ('0' ≤ c) && decide (c ≤ '9')

/-- A regex word character (`\w` for the ASCII inputs in scope): a letter,
a digit, or an underscore.  `\b` in the source's search pattern is a
transition between such a character and a non-word character or a string
edge. -/
def isWordChar (c : Char) : Bool :=
  isAsciiLetter c || isAsciiDigit c || decide (c = '_')

/-- The whitespace characters stripped by Python's `str.strip()` with no
argument (ASCII part). -/
def isSpaceChar (c : Char) : Bool :=
  decide (c = ' ') || decide (c = '\t') || decide (c = '\n') || decide (c = '\r')
    || decide (c = Char.ofNat 11) || decide (c = Char.ofNat 12)

/-- Sentence delimiter: the character class `[.!?]` used by `abstract_stats`. -/
def isSentDelim (c : Char) : Bool :=
  decide (c = '.') || decide (c = '!') || decide (c = '?')

/-- `str.strip()` with no argument: drop whitespace from both ends. -/
def pyStrip (s : Str) : Str :=
  ((s.dropWhile isSpaceChar).reverse.dropWhile isSpaceChar).reverse

/-- `str.strip("/")`: drop `/` characters from both ends, as done on the
request path before splitting it into segments. -/
def stripSlashes (s : Str) : Str :=
  ((s.dropWhile (fun c => decide (c = '/'))).reverse.dropWhile
    (fun c => decide (c = '/'))).reverse

/-- Helper of `wordRuns`: scans the text, `cur` holding the letters of the
run in progress (reversed); a non-letter closes the run. -/
def wordRunsAux : Str → Str → List Str
  | cur, [] => if cur.isEmpty then [] else [cur.reverse]
  | cur, c :: rest =>
    if isAsciiLetter c then wordRunsAux (c :: cur) rest
    else if cur.isEmpty then wordRunsAux [] rest
    else cur.reverse :: wordRunsAux [] rest

/-- `WORD_RE.findall`: the maximal runs of ASCII letters of a string, in
left-to-right order. -/
def wordRuns (s : Str) : List Str := wordRunsAux [] s

/-- Embeds `tokenize(txt)`: `WORD_RE.findall((txt or "").lower())`.
`none` models Python `None`; `txt or ""` maps it (and only it, for string
inputs) to the empty string, then the whole text is lower-cased and the
maximal letter runs are extracted. -/
def tokenize (txt : Option Str) : List Str :=
  wordRuns ((txt.getD []).map Char.toLower)

/-- Helper of `splitSent`: walks the text accumulating the current segment
(reversed); `inRun` records that the previous character was a sentence
delimiter, so that a maximal run of delimiters produces a single split. -/
def splitSentAux : Bool → Str → Str → List Str
  | _, cur, [] => [cur.reverse]
  | inRun, cur, c :: rest =>
    if isSentDelim c then
      if inRun then splitSentAux true cur rest
      else cur.reverse :: splitSentAux true [] rest
    else splitSentAux false (c :: cur) rest

/-- Embeds `re.split(r"[.!?]+", text)`: the segments of `text` between
maximal runs of sentence delimiters (empty segments included, exactly as
`re.split` produces them). -/
def splitSent (text : Str) : List Str :=
  splitSentAux false [] text

/-- The statistics record returned by `abstract_stats`. -/
structure AbstractStats where
  total_words : Nat
  unique_words : Nat
  total_sentences : Nat
deriving DecidableEq, Repr

/-- The text-level core of `abstract_stats(p)` applied to the abstract text:
`words = tokenize(text)`, `sents = [s for s in re.split(r"[.!?]+", text) if
s.strip()]`, and the three counts (`len(set(words))` is the number of
distinct tokens). -/
def statsOfText (text : Str) : AbstractStats :=
  { total_words := (tokenize (some text)).length
    unique_words := (tokenize (some text)).dedup.length
    total_sentences := ((splitSent text).filter (fun s => !(pyStrip s).isEmpty)).length }

/-- Case-insensitive comparison of a pattern character `t` (always a
lowercase letter here, since query terms come from `tokenize`) with a text
character `c`, as under `re.IGNORECASE` for ASCII. -/
def ciEq (t c : Char) : Bool := c.toLower == t

/-- The pattern `re.escape(t)` matches (case-insensitively) at offset `i` of
`text`.  `t` is a run of letters, so its escape is itself. -/
def ciMatchAt (term text : Str) (i : Nat) : Bool :=
  decide (i + term.length ≤ text.length) &&
  (List.range term.length).all (fun j => ciEq (term.getD j ' ') (text.getD (i + j) ' '))

/-- `\b` holds before offset `i` for a pattern starting with a word
character: `i` is the string start or the preceding character is not a word
character. -/
def boundaryBefore (text : Str) (i : Nat) : Bool :=
  i == 0 || !isWordChar (text.getD (i - 1) ' ')

/-- `\b` holds after the pattern occurrence starting at offset `i`: the
occurrence ends at the string end or the following character is not a word
character. -/
def boundaryAfter (term text : Str) (i : Nat) : Bool :=
  i + term.length == text.length || !isWordChar (text.getD (i + term.length) ' ')

/-- An occurrence of `\b term \b` (with `re.IGNORECASE`) starting at offset
`i` of `text`. -/
def wholeWordAt (term text : Str) (i : Nat) : Bool :=
  ciMatchAt term text i && boundaryBefore text i && boundaryAfter term text i

/-- `len(pat.findall(text))` for `pat = re.compile(rf"\b{re.escape(t)}\b",
re.IGNORECASE)`: the number of occurrence positions of the whole-word
pattern.  `findall` scans left to right counting non-overlapping matches;
for this pattern two occurrences can never overlap (the character before a
later overlapping start would be a letter of the earlier occurrence, so no
`\b` holds there), hence the non-overlapping count equals the count over
all positions.  `scanCount` below is the literal left-to-right scan and is
proved to agree. -/
def countOccur (term text : Str) : Nat :=
  (List.range text.length).countP (fun i => wholeWordAt term text i)

/-- The literal `findall` scan: try each position from left to right, and
after a match resume after its end. -/
def scanCount (term text : Str) (i : Nat) : Nat :=
  if _h : i < text.length then
    if wholeWordAt term text i then 1 + scanCount term text (i + max term.length 1)
    else scanCount term text (i + 1)
  else 0
termination_by text.length - i
decreasing_by
  · have h1 : 1 ≤ max term.length 1 := le_max_right _ _
    omega
  · omega

/-- The haystack passed to `count_terms` by the search route: it always
carries both a `"title"` and an `"abstract"` entry, so the `if "title" in
haystack` / `if "abstract" in haystack` guards of the source are always
taken. -/
structure Haystack where
  title : Str
  abstract : Str
deriving DecidableEq, Repr

/-- The loop of `count_terms`: accumulates the running total and the
`in_title` / `in_abs` flags over the query terms. -/
def countTermsAux (hay : Haystack) : List Str → Nat → Bool → Bool → Nat × Bool × Bool
  | [], total, inTitle, inAbs => (total, inTitle, inAbs)
  | t :: ts, total, inTitle, inAbs =>
    countTermsAux hay ts (total + countOccur t hay.title + countOccur t hay.abstract)
      (inTitle || decide (0 < countOccur t hay.title))
      (inAbs || decide (0 < countOccur t hay.abstract))

/-- Embeds `count_terms(haystack, terms)`: the total occurrence count over
all terms and both fields, and the `where` list naming the fields with at
least one match, `"title"` first. -/
def count_terms (hay : Haystack) (terms : List Str) : Nat × List Str :=
  let r := countTermsAux hay terms 0 false false
  (r.1, (if r.2.1 then [chars "title"] else []) ++ (if r.2.2 then [chars "abstract"] else []))

/-- JSON documents, as produced by `json.load`.  Numbers are modelled as
integers (no claim involves floating point); objects are association lists
whose duplicate keys have already been resolved by the parser, so lookup
takes the first match. -/
inductive Json where
  | null
  | bool (b : Bool)
  | num (n : Int)
  | str (s : Str)
  | arr (elems : List Json)
  | obj (fields : List (Str × Json))

/-- Python truthiness of a JSON value. -/
def truthy : Json → Bool
  | .null => false
  | .bool b => b
  | .num n => !(n == 0)
  | .str s => !s.isEmpty
  | .arr xs => !xs.isEmpty
  | .obj fs => !fs.isEmpty

/-- A paper record as stored: the field list of a JSON object. -/
abbrev PaperObj := List (Str × Json)

/-- Dictionary lookup on an object's fields. -/
def jGetOpt : PaperObj → Str → Option Json
  | [], _ => none
  | (k', v) :: rest, k => if k' = k then some v else jGetOpt rest k

/-- `p.get(k)`: `None` (modelled `Json.null`) when the key is absent. -/
def jGet (p : PaperObj) (k : Str) : Json := (jGetOpt p k).getD .null

/-- `p.get(k, d)`. -/
def jGetD (p : PaperObj) (k : Str) (d : Json) : Json := (jGetOpt p k).getD d

/-- Python `a or b` on JSON values: `a` when truthy, else `b`. -/
def pyOr (a b : Json) : Json := if truthy a then a else b

/-- Reads a JSON value as text.  Every claim-relevant call site holds a
string here; a non-string would make the Python source raise inside the
request handler, which is outside the modelled scope of these claims. -/
def asStr : Json → Str
  | .str s => s
  | _ => []

/-- Embeds `abstract_stats(p)`: the statistics of
`p.get("abstract", "") or ""`. -/
def abstract_stats (p : PaperObj) : AbstractStats :=
  statsOfText (asStr (pyOr (jGetD p (chars "abstract") (.str [])) (.str [])))

/-- The state of the corpus file at startup: absent, present but not valid
JSON, or present with a parsed document. -/
inductive FileState where
  | missing
  | invalid
  | content (doc : Json)

/-- Embeds `load_json(path)`: `try: return json.load(f) except
FileNotFoundError: return None`.  Only `FileNotFoundError` is caught; a
file that is not valid JSON raises `JSONDecodeError`, modelled as the
`Except.error` case, which nothing in the source catches at startup. -/
def load_json : FileState → Except String (Option Json)
  | .missing => .ok none
  | .invalid => .error "json.decoder.JSONDecodeError"
  | .content doc => .ok (some doc)

/-- Python `doc or []` where `doc` is the value returned by `load_json`. -/
def pyOrDoc (doc : Option Json) (d : Json) : Json :=
  match doc with
  | none => d
  | some j => if truthy j then j else d

/-- Iteration over a JSON value, as in `for p in self.papers`: a list
yields its elements, a dict its keys, a string its characters; other values
raise `TypeError`. -/
def pyIterate : Json → Except String (List Json)
  | .arr xs => .ok xs
  | .obj fs => .ok (fs.map (fun kv => Json.str kv.1))
  | .str s => .ok (s.map (fun c => Json.str [c]))
  | _ => .error "TypeError: not iterable"

/-- `p.get("arxiv_id")` / `p.get("id")` requires `p` to be a dict; the
startup loop calls it on every element, so any non-object element raises
`AttributeError` before the server starts. -/
def asPaperObj : Json → Except String PaperObj
  | .obj fs => .ok fs
  | _ => .error "AttributeError"

/-- Dict assignment `m[k] = v`: overwrite in place, else append. -/
def dictInsert (m : List (Str × PaperObj)) (k : Str) (v : PaperObj) :
    List (Str × PaperObj) :=
  match m with
  | [] => [(k, v)]
  | (k', v') :: rest =>
    if k' = k then (k', v) :: rest else (k', v') :: dictInsert rest k v

/-- `p.get("arxiv_id") or p.get("id")`, the id under which a paper is
indexed. -/
def resolvedAid (p : PaperObj) : Json :=
  pyOr (jGet p (chars "arxiv_id")) (jGet p (chars "id"))

/-- The `by_id` index built by `DataStore.__init__`: papers whose resolved
id is a string, last write wins on duplicates. -/
def buildIndex (ps : List PaperObj) : List (Str × PaperObj) :=
  ps.foldl
    (fun m p =>
      match resolvedAid p with
      | .str s => dictInsert m s p
      | _ => m)
    []

/-- The document store after a successful startup: the ordered paper
sequence and the id index. -/
structure DataStore where
  papers : List PaperObj
  by_id : List (Str × PaperObj)

/-- The element-validation part of the startup loop: `p.get(...)` is
called on every element, so the first non-dict element raises
`AttributeError` and aborts startup. -/
def collectPapers : List Json → Except String (List PaperObj)
  | [] => .ok []
  | j :: rest => do
    let p ← asPaperObj j
    let ps ← collectPapers rest
    return p :: ps

/-- Embeds `DataStore.__init__` run at module import: any uncaught
exception here (`Except.error`) aborts the Python process before the
server starts. -/
def initStore (fs : FileState) : Except String DataStore := do
  let doc ← load_json fs
  let elems ← pyIterate (pyOrDoc doc (.arr []))
  let ps ← collectPapers elems
  return ⟨ps, buildIndex ps⟩

/-- The paper-object keys the endpoints read; any other field of a stored
element is never consulted. -/
def recognizedKeys : List Str :=
  [chars "arxiv_id", chars "id", chars "title", chars "authors",
   chars "abstract", chars "categories", chars "published", chars "updated"]

/-- `DataStore.exists()`: `bool(self.papers)`. -/
def DataStore.existsData (s : DataStore) : Bool := !s.papers.isEmpty

/-- Hexadecimal digit value, as used by percent-decoding. -/
def hexVal (c : Char) : Option Nat :=
  if isAsciiDigit c then some (c.toNat - '0'.toNat)
  else if decide ('a' ≤ c) && decide (c ≤ 'f') then some (c.toNat - 'a'.toNat + 10)
  else if decide ('A' ≤ c) && decide (c ≤ 'F') then some (c.toNat - 'A'.toNat + 10)
  else none

/-- `urllib.parse.unquote` restricted to single-byte escapes: `%XY` with two
hexadecimal digits decodes to the character of that byte, an invalid escape
stays literal.  Multi-byte UTF-8 escape sequences are outside the modelled
scope. -/
def unquote : Str → Str
  | [] => []
  | '%' :: a :: b :: rest =>
    (match hexVal a, hexVal b with
     | some x, some y => Char.ofNat (16 * x + y) :: unquote rest
     | _, _ => '%' :: unquote (a :: b :: rest))
  | c :: rest => c :: unquote rest

/-- `urllib.parse.unquote_plus`, applied by `parse_qsl` to names and
values: `+` becomes a space, then percent-escapes are decoded. -/
def unquote_plus (s : Str) : Str :=
  unquote (s.map (fun c => if c = '+' then ' ' else c))

/-- `s.split(sep)` for a single separator character: the segments between
separator occurrences, empty segments kept. -/
def splitOnChar (sep : Char) : Str → List Str
  | [] => [[]]
  | c :: rest =>
    let r := splitOnChar sep rest
    if c = sep then [] :: r else (c :: r.headD []) :: r.tail

/-- One `&`-chunk of a query string as handled by `urllib.parse.parse_qsl`
with default options: an empty chunk or a chunk without `=` is skipped, as
is a chunk whose raw value is empty (`keep_blank_values` is off); name and
value get `+`-to-space and percent-decoding. -/
def qsPair (chunk : Str) : Option (Str × Str) :=
  if chunk.isEmpty then none
  else if decide ('=' ∈ chunk) then
    let n := chunk.takeWhile (fun c => !decide (c = '='))
    let v := (chunk.dropWhile (fun c => !decide (c = '='))).drop 1
    if v.isEmpty then none else some (unquote_plus n, unquote_plus v)
  else none

/-- `parse_qs(query).get("q", [""])[0]`: the first value listed under the
key `"q"`, or the empty string when there is none. -/
def firstQValue (query : Str) : Str :=
  match ((splitOnChar '&' query).filterMap qsPair).find?
      (fun p => decide (p.1 = chars "q")) with
  | some p => p.2
  | none => []

/-- The request target before the fragment marker `#`, which `urlparse`
severs first. -/
def preFrag (raw : Str) : Str := raw.takeWhile (fun c => !decide (c = '#'))

/-- `urlparse(raw).path`.  (The obsolete `;params` splitting of the last
path segment is not modelled.) -/
def pathOf (raw : Str) : Str := (preFrag raw).takeWhile (fun c => !decide (c = '?'))

/-- `urlparse(raw).query`: the text after the first `?` and before any
fragment. -/
def queryOf (raw : Str) : Str :=
  ((preFrag raw).dropWhile (fun c => !decide (c = '?'))).drop 1

/-- `[unquote(x) for x in path.strip("/").split("/") if x]`. -/
def partsOfPath (path : Str) : List Str :=
  ((splitOnChar '/' (stripSlashes path)).filter (fun x => !x.isEmpty)).map unquote

/-- The `parts` list computed by `do_GET` from the raw request target. -/
def routeParts (raw : Str) : List Str := partsOfPath (pathOf raw)

/-- Route guard of `GET /papers`: `path == "/papers" and len(parts) == 1`. -/
abbrev isPapersRoute (raw : Str) : Prop :=
  pathOf raw = chars "/papers" ∧ (routeParts raw).length = 1

/-- Route guard of `GET /papers/{arxiv_id}`:
`len(parts) == 2 and parts[0] == "papers"`. -/
abbrev isPaperDetailRoute (raw : Str) : Prop :=
  (routeParts raw).length = 2 ∧ (routeParts raw).headD [] = chars "papers"

/-- `parts[1]`, the path-unescaped id the detail route looks up. -/
def requestedId (raw : Str) : Str := (routeParts raw).getD 1 []

/-- Route guard of `GET /search`: `path == "/search" and len(parts) == 1`. -/
abbrev isSearchRoute (raw : Str) : Prop :=
  pathOf raw = chars "/search" ∧ (routeParts raw).length = 1

/-- Route guard of `GET /stats`: `path == "/stats" and len(parts) == 1`. -/
abbrev isStatsRoute (raw : Str) : Prop :=
  pathOf raw = chars "/stats" ∧ (routeParts raw).length = 1

/-- An HTTP response: status code and JSON body, as produced by
`send_json` (serialization to bytes is not modelled). -/
structure Response where
  status : Nat
  body : Json

/-- A body of the shape `{"error": msg}`. -/
def errorBody (msg : String) : Json := .obj [(chars "error", .str (chars msg))]

def dataUnavailableBody : Json := errorBody "papers.json not found or empty"

def missingQBody : Json := errorBody "missing query parameter 'q'"

def malformedQBody : Json := errorBody "malformed query"

def endpointNotFoundBody : Json := errorBody "endpoint not found"

/-- The 404 body of the detail route, echoing the requested id. -/
def unknownPaperBody (aid : Str) : Json :=
  .obj [(chars "error", .str (chars "unknown paper id")), (chars "arxiv_id", .str aid)]

/-- The id value serialized in listing, detail and search rows:
`p.get("arxiv_id") or p.get("id", "")`. -/
def rowAid (p : PaperObj) : Json :=
  pyOr (jGet p (chars "arxiv_id")) (jGetD p (chars "id") (.str []))

/-- One entry of the `GET /papers` listing. -/
def paperRow (p : PaperObj) : Json :=
  .obj [ (chars "arxiv_id", rowAid p),
         (chars "title", jGetD p (chars "title") (.str [])),
         (chars "authors", jGetD p (chars "authors") (.arr [])),
         (chars "categories", jGetD p (chars "categories") (.arr [])) ]

/-- The `abstract_stats` object serialized in the detail response. -/
def statsJson (st : AbstractStats) : Json :=
  .obj [ (chars "total_words", .num st.total_words),
         (chars "unique_words", .num st.unique_words),
         (chars "total_sentences", .num st.total_sentences) ]

/-- The `GET /papers/{arxiv_id}` detail object. -/
def paperDetail (p : PaperObj) : Json :=
  .obj [ (chars "arxiv_id", rowAid p),
         (chars "title", jGetD p (chars "title") (.str [])),
         (chars "authors", jGetD p (chars "authors") (.arr [])),
         (chars "abstract", jGetD p (chars "abstract") (.str [])),
         (chars "categories", jGetD p (chars "categories") (.arr [])),
         (chars "published",
           pyOr (jGet p (chars "published")) (pyOr (jGet p (chars "updated")) (.str []))),
         (chars "abstract_stats", statsJson (abstract_stats p)) ]

/-- The haystack the search route passes to `count_terms`:
`{"title": p.get("title",""), "abstract": p.get("abstract","")}`. -/
def mkHaystack (p : PaperObj) : Haystack :=
  ⟨asStr (jGetD p (chars "title") (.str [])),
   asStr (jGetD p (chars "abstract") (.str []))⟩

/-- One search result row. -/
def searchRow (p : PaperObj) (score : Nat) (fields : List Str) : Json :=
  .obj [ (chars "arxiv_id", rowAid p),
         (chars "title", jGetD p (chars "title") (.str [])),
         (chars "match_score", .num score),
         (chars "matches_in", .arr (fields.map Json.str)) ]

/-- The result loop of the search route: each paper in corpus order
contributes a row exactly when its score is positive. -/
def searchRows (papers : List PaperObj) (terms : List Str) : List Json :=
  match papers with
  | [] => []
  | p :: ps =>
    let r := count_terms (mkHaystack p) terms
    if 0 < r.1 then searchRow p r.1 r.2 :: searchRows ps terms
    else searchRows ps terms

/-- `freq[w] = freq.get(w, 0) + 1`: increment in place, new keys appended,
as in a Python dict. -/
def dictIncr (m : List (Str × Nat)) (w : Str) : List (Str × Nat) :=
  match m with
  | [] => [(w, 1)]
  | (k, n) :: rest => if k = w then (k, n + 1) :: rest else (k, n) :: dictIncr rest w

/-- `tokenize(p.get("abstract", ""))`, the token list the stats route draws
from each paper. -/
def abstractTokens (p : PaperObj) : List Str :=
  tokenize (some (asStr (jGetD p (chars "abstract") (.str []))))

/-- The corpus-wide word-frequency dict of the stats route, keys in
first-occurrence order. -/
def computeFreq (papers : List PaperObj) : List (Str × Nat) :=
  papers.foldl (fun m p => (abstractTokens p).foldl dictIncr m) []

/-- Strict lexicographic comparison of strings by code point, Python `<`. -/
def strLt : Str → Str → Bool
  | [], [] => false
  | [], _ :: _ => true
  | _ :: _, [] => false
  | a :: as, b :: bs => decide (a < b) || (decide (a = b) && strLt as bs)

/-- The sort order of the stats route, `key=lambda x: (-x[1], x[0])`:
`a` ranks strictly before `b` when `a` has the higher frequency, or equal
frequency and the lexicographically smaller word. -/
def keyLt (a b : Str × Nat) : Bool :=
  decide (b.2 < a.2) || (decide (a.2 = b.2) && strLt a.1 b.1)

/-- The reflexive closure used for sorting: `a` need not come after `b`. -/
def keyLe (a b : Str × Nat) : Bool := !keyLt b a

/-- Insertion into a list already sorted by `keyLe`. -/
def insertSorted (x : Str × Nat) : List (Str × Nat) → List (Str × Nat)
  | [] => [x]
  | y :: ys => if keyLe x y then x :: y :: ys else y :: insertSorted x ys

/-- `sorted(freq.items(), key=lambda x: (-x[1], x[0]))`.  The key is
injective on a dict's items (dict keys are distinct), so the sorted
permutation is unique and this insertion sort returns exactly what
Python's stable sort returns. -/
def sortFreq (items : List (Str × Nat)) : List (Str × Nat) :=
  items.foldr insertSorted []

/-- The `top_10` selection of the stats route, as (word, frequency) pairs. -/
def top10 (papers : List PaperObj) : List (Str × Nat) :=
  (sortFreq (computeFreq papers)).take 10

/-- The `categories` list of a paper as iterated by the stats route.  A
non-list value would be iterated or rejected by Python in type-specific
ways that no claim exercises; it is read as empty here. -/
def categoriesOf (p : PaperObj) : List Json :=
  match jGetD p (chars "categories") (.arr []) with
  | .arr xs => xs
  | _ => []

/-- String category labels of a paper.  Category labels are strings in
every corpus in scope; non-string labels are outside the modelled scope. -/
def catStrings (p : PaperObj) : List Str :=
  (categoriesOf p).filterMap (fun j => match j with | .str s => some s | _ => none)

/-- The `category_distribution` dict of the stats route. -/
def computeCatDist (papers : List PaperObj) : List (Str × Nat) :=
  papers.foldl (fun m p => (catStrings p).foldl dictIncr m) []

/-- The `GET /stats` body. -/
def statsBody (papers : List PaperObj) : Json :=
  .obj [ (chars "total_papers", .num papers.length),
         (chars "total_words", .num (papers.map (fun p => (abstractTokens p).length)).sum),
         (chars "unique_words", .num ((papers.map abstractTokens).flatten.dedup.length)),
         (chars "top_10_words",
           .arr ((top10 papers).map
             (fun wn => .obj [(chars "word", .str wn.1), (chars "frequency", .num wn.2)]))),
         (chars "category_distribution",
           .obj ((computeCatDist papers).map (fun kn => (kn.1, Json.num kn.2)))) ]

/-- Association-list lookup, the dict read `DATA.by_id.get(aid)`. -/
def lookupAssoc : List (Str × PaperObj) → Str → Option PaperObj
  | [], _ => none
  | (k, v) :: rest, aid => if k = aid then some v else lookupAssoc rest aid

/-- The `GET /search` branch of the handler, given the raw query string:
`q = (parse_qs(query).get("q", [""])[0] or "").strip()` (the `or ""` is the
identity on the already-string value and is absorbed by the strip). -/
def searchResponse (store : DataStore) (query : Str) : Response :=
  let q := pyStrip (firstQValue query)
  if q.isEmpty then ⟨400, missingQBody⟩
  else
    let terms := tokenize (some q)
    if terms.isEmpty then ⟨400, malformedQBody⟩
    else
      ⟨200, .obj [(chars "query", .str q),
                  (chars "results", .arr (searchRows store.papers terms))]⟩

/-- Embeds `Handler.do_GET`: routing of a GET request from the loaded
store and the raw request target `self.path`.  The data-availability check
comes first; the route guards are tested in source order. -/
def do_GET (store : DataStore) (raw : Str) : Response :=
  if !store.existsData then ⟨500, dataUnavailableBody⟩
  else if isPapersRoute raw then ⟨200, .arr (store.papers.map paperRow)⟩
  else if isPaperDetailRoute raw then
    (match lookupAssoc store.by_id (requestedId raw) with
     | none => ⟨404, unknownPaperBody (requestedId raw)⟩
     | some p => ⟨200, paperDetail p⟩)
  else if isSearchRoute raw then searchResponse store (queryOf raw)
  else if isStatsRoute raw then ⟨200, statsBody store.papers⟩
  else ⟨404, endpointNotFoundBody⟩

/-- Modelled from the Python standard library (`http.server`, which is not
part of this repository): `BaseHTTPRequestHandler` dispatches a request of
method `M` to a `do_M` attribute of the handler class; the source defines
only `do_GET`, so any other method is answered by the framework itself
with status 501 (`Unsupported method`, an HTML error page rendered here as
`Json.null`) before any code of this repository runs. -/
def handle (store : DataStore) (method : Str) (raw : Str) : Response :=
  if method = chars "GET" then do_GET store raw else ⟨501, .null⟩

/-- A one-paper corpus used as concrete input in witnesses. -/
def samplePaper : PaperObj :=
  [ (chars "arxiv_id", .str (chars "1234.5678")),
    (chars "title", .str (chars "Neural networks")),
    (chars "abstract", .str (chars "Deep learning. Deep networks!")),
    (chars "categories", .arr [.str (chars "cs.LG")]) ]

/-- The store loaded from a corpus holding only `samplePaper`. -/
def sampleStore : DataStore := ⟨[samplePaper], buildIndex [samplePaper]⟩

/-- The counting rule exactly as the specification words it: a word
boundary is a position not adjacent to another LETTER, so digits and
underscores do not block a boundary.  Defined only to compare with the
source's rule, whose `\b` also treats digits and underscores as word
characters. -/
def specWholeWordAt (term text : Str) (i : Nat) : Bool :=
  ciMatchAt term text i
  && (i == 0 || !isAsciiLetter (text.getD (i - 1) ' '))
  && (i + term.length == text.length || !isAsciiLetter (text.getD (i + term.length) ' '))

/-- Occurrence count under the specification's letter-only boundary rule. -/
def specCountOccur (term text : Str) : Nat :=
  (List.range text.length).countP (fun i => specWholeWordAt term text i)

/-! Helper lemmas about characters. -/

theorem char_le_iff (a c : Char) : a ≤ c ↔ a.toNat ≤ c.toNat := by
  rw [Char.le_def, UInt32.le_def, BitVec.le_def]
  rfl

theorem char_toNat_ofNat (n : Nat) (h : n.isValidChar) : (Char.ofNat n).toNat = n := by
  unfold Char.ofNat
  rw [dif_pos h]
  unfold Char.ofNatAux Char.toNat
  simp [UInt32.toNat]

theorem isAsciiLetter_iff (c : Char) :
    isAsciiLetter c = true ↔
      (65 ≤ c.toNat ∧ c.toNat ≤ 90) ∨ (97 ≤ c.toNat ∧ c.toNat ≤ 122) := by
  simp only [isAsciiLetter, Bool.or_eq_true, Bool.and_eq_true, decide_eq_true_eq,
    char_le_iff]
  constructor
  · rintro (⟨h1, h2⟩ | ⟨h1, h2⟩)
    · exact Or.inr ⟨h1, h2⟩
    · exact Or.inl ⟨h1, h2⟩
  · rintro (⟨h1, h2⟩ | ⟨h1, h2⟩)
    · exact Or.inr ⟨h1, h2⟩
    · exact Or.inl ⟨h1, h2⟩

theorem isLowerLetter_iff (c : Char) :
    isLowerLetter c = true ↔ 97 ≤ c.toNat ∧ c.toNat ≤ 122 := by
  simp only [isLowerLetter, Bool.and_eq_true, decide_eq_true_eq, char_le_iff]
  exact Iff.rfl

theorem toLower_isLower (c : Char) (h : isAsciiLetter c.toLower = true) :
    isLowerLetter c.toLower = true := by
  unfold Char.toLower at *
  by_cases hc : 65 ≤ c.toNat ∧ c.toNat ≤ 90
  · rw [if_pos hc] at *
    rw [isLowerLetter_iff, char_toNat_ofNat _ (Or.inl (by omega))]
    omega
  · rw [if_neg hc] at *
    rw [isAsciiLetter_iff] at h
    rw [isLowerLetter_iff]
    omega

theorem ciEq_isLetter (t c : Char) (ht : isLowerLetter t = true)
    (h : ciEq t c = true) : isAsciiLetter c = true := by
  have hc : c.toLower = t := by simpa [ciEq] using h
  unfold Char.toLower at hc
  by_cases hb : 65 ≤ c.toNat ∧ c.toNat ≤ 90
  · rw [isAsciiLetter_iff]
    omega
  · rw [if_neg hb] at hc
    subst hc
    rw [isLowerLetter_iff] at ht
    rw [isAsciiLetter_iff]
    omega

/-! The tokenizer (claim C8). -/

theorem wordRunsAux_mem (s : Str) :
    ∀ (cur : Str) (t : Str), t ∈ wordRunsAux cur s →
      (∀ c ∈ cur, isAsciiLetter c = true) →
      t ≠ [] ∧ ∀ c ∈ t, isAsciiLetter c = true ∧ (c ∈ cur ∨ c ∈ s) := by
  induction s with
  | nil =>
    intro cur t ht hcur
    by_cases hc : cur.isEmpty
    · simp [wordRunsAux, hc] at ht
    · simp only [wordRunsAux, hc, Bool.false_eq_true, if_false, List.mem_singleton] at ht
      subst ht
      refine ⟨by simpa using (by simpa [List.isEmpty_iff] using hc), ?_⟩
      intro c hcmem
      exact ⟨hcur c (List.mem_reverse.mp hcmem), Or.inl (List.mem_reverse.mp hcmem)⟩
  | cons a rest ih =>
    intro cur t ht hcur
    by_cases ha : isAsciiLetter a
    · simp only [wordRunsAux, ha, if_true] at ht
      have hcur' : ∀ c ∈ a :: cur, isAsciiLetter c = true := by
        intro c hc
        rcases List.mem_cons.mp hc with rfl | hc
        · exact ha
        · exact hcur c hc
      obtain ⟨hne, hall⟩ := ih (a :: cur) t ht hcur'
      refine ⟨hne, fun c hc => ?_⟩
      obtain ⟨hl, hmem⟩ := hall c hc
      rcases hmem with hmem | hmem
      · rcases List.mem_cons.mp hmem with rfl | hmem
        · exact ⟨hl, Or.inr (List.mem_cons_self _ _)⟩
        · exact ⟨hl, Or.inl hmem⟩
      · exact ⟨hl, Or.inr (List.mem_cons_of_mem _ hmem)⟩
    · simp only [wordRunsAux, ha, Bool.false_eq_true, if_false] at ht
      by_cases hc : cur.isEmpty
      · rw [if_pos hc] at ht
        obtain ⟨hne, hall⟩ := ih [] t ht (by intro c hc; simp at hc)
        refine ⟨hne, fun c hcm => ?_⟩
        obtain ⟨hl, hmem⟩ := hall c hcm
        rcases hmem with hmem | hmem
        · simp at hmem
        · exact ⟨hl, Or.inr (List.mem_cons_of_mem _ hmem)⟩
      · rw [if_neg hc] at ht
        rcases List.mem_cons.mp ht with rfl | ht
        · refine ⟨by simpa using (by simpa [List.isEmpty_iff] using hc), ?_⟩
          intro c hcmem
          exact ⟨hcur c (List.mem_reverse.mp hcmem), Or.inl (List.mem_reverse.mp hcmem)⟩
        · obtain ⟨hne, hall⟩ := ih [] t ht (by intro c hc; simp at hc)
          refine ⟨hne, fun c hcm => ?_⟩
          obtain ⟨hl, hmem⟩ := hall c hcm
          rcases hmem with hmem | hmem
          · simp at hmem
          · exact ⟨hl, Or.inr (List.mem_cons_of_mem _ hmem)⟩

/-- C8: `tokenize` is a pure function of its input (it is a Lean function,
so purity and determinism are immediate); it maps `None` and the empty
string to the empty sequence and `"Hello, World! 123"` to
`["hello","world"]`, and every token it returns on any input is a
non-empty run of lowercase ASCII letters, tokens listed in left-to-right
occurrence order. -/
theorem tokenize_spec (txt : Option Str) (t : Str) (h : t ∈ tokenize txt) :
    tokenize none = [] ∧ tokenize (some []) = [] ∧
    tokenize (some (chars "Hello, World! 123")) = [chars "hello", chars "world"] ∧
    t ≠ [] ∧ ∀ c ∈ t, isLowerLetter c = true := by
  refine ⟨by decide, by decide, by decide, ?_, ?_⟩
  · exact (wordRunsAux_mem _ [] t h (by intro c hc; simp at hc)).1
  · intro c hc
    obtain ⟨hl, hmem⟩ := (wordRunsAux_mem _ [] t h (by intro c hc; simp at hc)).2 c hc
    rcases hmem with hmem | hmem
    · simp at hmem
    · obtain ⟨d, _, rfl⟩ := List.mem_map.mp hmem
      exact toLower_isLower d hl

theorem tokenize_spec_witness :
    chars "ab" ∈ tokenize (some (chars "ab")) ∧
    (tokenize none = [] ∧ tokenize (some []) = [] ∧
     tokenize (some (chars "Hello, World! 123")) = [chars "hello", chars "world"] ∧
     chars "ab" ≠ [] ∧ ∀ c ∈ chars "ab", isLowerLetter c = true) :=
  ⟨by decide, tokenize_spec (some (chars "ab")) (chars "ab") (by decide)⟩

/-! Sentence splitting (claim C2). -/

theorem splitSentAux_no_delim (text : Str) :
    ∀ cur : Str, (∀ c ∈ text, isSentDelim c = false) →
      splitSentAux false cur text = [cur.reverse ++ text] := by
  induction text with
  | nil => intro cur _; simp [splitSentAux]
  | cons c rest ih =>
    intro cur h
    have hc : isSentDelim c = false := h c (List.mem_cons_self _ _)
    simp only [splitSentAux, hc, Bool.false_eq_true, if_false]
    rw [ih (c :: cur) (fun d hd => h d (List.mem_cons_of_mem _ hd))]
    simp

theorem pyStrip_ne_nil (s : Str) (h : ∃ c ∈ s, isSpaceChar c = false) :
    pyStrip s ≠ [] := by
  intro he
  obtain ⟨c, hc, hcf⟩ := h
  have h1 : (s.dropWhile isSpaceChar).reverse.dropWhile isSpaceChar = [] := by
    simpa [pyStrip] using congrArg List.reverse he
  have h2 : ∀ x ∈ s.dropWhile isSpaceChar, isSpaceChar x = true := by
    intro x hx
    exact List.dropWhile_eq_nil_iff.mp h1 x (List.mem_reverse.mpr hx)
  have hsplit : s.takeWhile isSpaceChar ++ s.dropWhile isSpaceChar = s :=
    List.takeWhile_append_dropWhile ..
  rw [← hsplit] at hc
  rcases List.mem_append.mp hc with hc | hc
  · exact absurd (List.mem_takeWhile_imp hc) (by simp [hcf])
  · exact absurd (h2 c hc) (by simp [hcf])

/-- C2: `total_sentences` is the number of segments that are non-blank
after trimming when the raw abstract is split on maximal runs of `.`, `!`,
`?` (that equation is the general first conjunct); and an abstract that is
non-empty, not all whitespace, and free of those delimiters yields exactly
one sentence. -/
theorem abstract_stats_sentences (text : Str)
    (hnod : ∀ c ∈ text, isSentDelim c = false)
    (hnws : ∃ c ∈ text, isSpaceChar c = false) :
    (∀ p : PaperObj, (abstract_stats p).total_sentences
        = ((splitSent (asStr (pyOr (jGetD p (chars "abstract") (Json.str []))
              (Json.str [])))).filter (fun s => !(pyStrip s).isEmpty)).length)
    ∧ (abstract_stats [(chars "abstract", Json.str text)]).total_sentences = 1 := by
  refine ⟨fun p => rfl, ?_⟩
  have htne : text ≠ [] := by
    obtain ⟨c, hc, _⟩ := hnws
    exact List.ne_nil_of_mem hc
  have hsplit : splitSent text = [text] := by
    unfold splitSent
    rw [splitSentAux_no_delim text [] hnod]
    simp
  have hstrip : (!(pyStrip text).isEmpty) = true := by
    simp [List.isEmpty_iff, pyStrip_ne_nil text hnws]
  have habs : abstract_stats [(chars "abstract", Json.str text)] = statsOfText text := by
    simp [abstract_stats, jGetD, jGetOpt, pyOr, truthy, asStr, List.isEmpty_iff, htne]
  rw [habs]
  simp [statsOfText, hsplit, List.filter, hstrip]

theorem abstract_stats_sentences_witness :
    (abstract_stats [(chars "abstract", Json.str (chars "abc"))]).total_sentences = 1 :=
  (abstract_stats_sentences (chars "abc") (by decide) (by decide)).2

/-! Whole-word matching (claims C1 and C10). -/

theorem wholeWordAt_bound (term text : Str) (i : Nat)
    (h : wholeWordAt term text i = true) : i + term.length ≤ text.length := by
  simp only [wholeWordAt, ciMatchAt, Bool.and_eq_true, decide_eq_true_eq] at h
  exact h.1.1.1

theorem ciMatchAt_char (term text : Str) (i k : Nat) (hk : k < term.length)
    (h : ciMatchAt term text i = true) :
    ciEq (term.getD k ' ') (text.getD (i + k) ' ') = true := by
  simp only [ciMatchAt, Bool.and_eq_true, List.all_eq_true] at h
  exact h.2 k (List.mem_range.mpr hk)

theorem wholeWordAt_no_overlap (term text : Str)
    (hlow : ∀ c ∈ term, isLowerLetter c = true)
    (i j : Nat) (hi : wholeWordAt term text i = true)
    (hij : i < j) (hj : j < i + term.length) :
    wholeWordAt term text j = false := by
  by_contra hcon
  rw [Bool.not_eq_false] at hcon
  have hbb : boundaryBefore text j = true := by
    simp only [wholeWordAt, Bool.and_eq_true] at hcon
    exact hcon.1.2
  have hk : j - 1 - i < term.length := by omega
  have hik : i + (j - 1 - i) = j - 1 := by omega
  have hci : ciEq (term.getD (j - 1 - i) ' ') (text.getD (j - 1) ' ') = true := by
    have := ciMatchAt_char term text i (j - 1 - i) hk
      (by simp only [wholeWordAt, Bool.and_eq_true] at hi; exact hi.1.1)
    rwa [hik] at this
  have hmem : term.getD (j - 1 - i) ' ' ∈ term := by
    rw [List.getD_eq_getElem term ' ' hk]
    exact List.getElem_mem hk
  have hletter : isAsciiLetter (text.getD (j - 1) ' ') = true :=
    ciEq_isLetter _ _ (hlow _ hmem) hci
  simp only [boundaryBefore, Bool.or_eq_true, beq_iff_eq, Bool.not_eq_true'] at hbb
  rcases hbb with hbb | hbb
  · omega
  · rw [isWordChar, hletter] at hbb
    simp at hbb

theorem scanCount_eq (term text : Str) (hne : term ≠ [])
    (hlow : ∀ c ∈ term, isLowerLetter c = true) :
    ∀ n i, text.length - i ≤ n →
      scanCount term text i
        = (List.range' i (text.length - i)).countP (fun k => wholeWordAt term text k) := by
  intro n
  induction n with
  | zero =>
    intro i h
    have hi : ¬ i < text.length := by omega
    rw [scanCount, dif_neg hi]
    have h0 : text.length - i = 0 := by omega
    rw [h0]
    rfl
  | succ n ih =>
    intro i h
    by_cases hi : i < text.length
    · have hlen : text.length - i = (text.length - (i + 1)) + 1 := by omega
      rw [scanCount, dif_pos hi, hlen, List.range'_succ, List.countP_cons]
      by_cases hw : wholeWordAt term text i = true
      · have hmax : max term.length 1 = term.length :=
          Nat.max_eq_left (List.length_pos.mpr hne)
        have hbound : i + term.length ≤ text.length := wholeWordAt_bound _ _ _ hw
        rw [if_pos hw, if_pos hw, hmax]
        have happ := List.range'_append (i + 1) (term.length - 1)
          (text.length - (i + term.length)) 1
        simp only [one_mul] at happ
        have h1 : i + 1 + (term.length - 1) = i + term.length := by
          have := List.length_pos.mpr hne
          omega
        rw [h1] at happ
        have ha : text.length - (i + 1)
            = (text.length - (i + term.length)) + (term.length - 1) := by
          have := List.length_pos.mpr hne
          omega
        rw [ha, ← happ, List.countP_append]
        have hzero : (List.range' (i + 1) (term.length - 1)).countP
            (fun k => wholeWordAt term text k) = 0 := by
          rw [List.countP_eq_zero]
          intro k hk
          have hmem := List.mem_range'_1.mp hk
          simp [wholeWordAt_no_overlap term text hlow i k hw (by omega) (by omega)]
        rw [hzero, ih (i + term.length) (by omega)]
        omega
      · rw [if_neg hw, Nat.add_zero, ih (i + 1) (by omega)]
        have hwf : wholeWordAt term text i = false := by
          simpa using hw
        rw [hwf]
        rfl
    · rw [scanCount, dif_neg hi]
      have h0 : text.length - i = 0 := by omega
      rw [h0]
      rfl

theorem countTermsAux_total (hay : Haystack) :
    ∀ (ts : List Str) (n : Nat) (bt ba : Bool),
      (countTermsAux hay ts n bt ba).1
        = n + (ts.map (fun t => countOccur t hay.title + countOccur t hay.abstract)).sum := by
  intro ts
  induction ts with
  | nil => intro n bt ba; simp [countTermsAux]
  | cons t ts ih =>
    intro n bt ba
    rw [countTermsAux, ih]
    simp only [List.map_cons, List.sum_cons]
    omega

/-- C1 (amended): `count_terms` counts, for every query term, whole-word
case-insensitive occurrences independently in the title and in the
abstract and sums them into the total (first conjunct); an occurrence is
whole-word when not adjacent to another word character — letter, digit or
underscore — as established by the agreement of the literal left-to-right
`findall` scan with the declarative per-position count (second conjunct);
hence a term embedded inside a longer word never matches while the same
term as a standalone word does (closing conjuncts). -/
theorem count_terms_whole_word (hay : Haystack) (terms : List Str) (term text : Str)
    (hne : term ≠ []) (hlow : ∀ c ∈ term, isLowerLetter c = true) :
    (count_terms hay terms).1
      = (terms.map (fun t => countOccur t hay.title + countOccur t hay.abstract)).sum
    ∧ scanCount term text 0 = countOccur term text
    ∧ countOccur (chars "neural") (chars "neuralnetwork") = 0
    ∧ countOccur (chars "neural") (chars "neural networks") = 1 := by
  refine ⟨?_, ?_, by decide, by decide⟩
  · have h := countTermsAux_total hay terms 0 false false
    simpa using h
  · rw [countOccur, List.range_eq_range']
    have h := scanCount_eq term text hne hlow text.length 0 (by omega)
    simpa using h

theorem count_terms_whole_word_witness :
    ((chars "neural" : Str) ≠ [] ∧ ∀ c ∈ chars "neural", isLowerLetter c = true)
    ∧ ((count_terms ⟨chars "Neural networks", chars "A neuralnetwork."⟩ [chars "neural"]).1
        = ([chars "neural"].map (fun t =>
            countOccur t (chars "Neural networks")
              + countOccur t (chars "A neuralnetwork."))).sum
      ∧ scanCount (chars "neural") (chars "neural nets Neural") 0
          = countOccur (chars "neural") (chars "neural nets Neural")
      ∧ countOccur (chars "neural") (chars "neuralnetwork") = 0
      ∧ countOccur (chars "neural") (chars "neural networks") = 1) :=
  ⟨⟨by decide, by decide⟩,
   count_terms_whole_word ⟨chars "Neural networks", chars "A neuralnetwork."⟩
     [chars "neural"] (chars "neural") (chars "neural nets Neural")
     (by decide) (by decide)⟩

/-- C1 (counterexample): with a word boundary defined as "not adjacent to
another letter", the term `"neural"` would occur once in the title
`"neural1"` (`specCountOccur` implements exactly that reading), but the
source's `\b` also treats the digit as a word character, so `count_terms`
finds no match there. -/
theorem count_terms_letter_boundary_cex :
    (count_terms ⟨chars "neural1", []⟩ [chars "neural"]).1 = 0
    ∧ specCountOccur (chars "neural") (chars "neural1") = 1 :=
  ⟨by decide, by decide⟩

/-! The search loop (claims C5 and C10). -/

theorem searchRows_eq_filterMap (papers : List PaperObj) (terms : List Str) :
    searchRows papers terms
      = papers.filterMap (fun p =>
          if 0 < (count_terms (mkHaystack p) terms).1
          then some (searchRow p (count_terms (mkHaystack p) terms).1
              (count_terms (mkHaystack p) terms).2)
          else none) := by
  induction papers with
  | nil => rfl
  | cons p ps ih =>
    rw [searchRows, List.filterMap_cons]
    by_cases h0 : 0 < (count_terms (mkHaystack p) terms).1
    · simp only [if_pos h0, ih]
    · simp only [if_neg h0, ih]

theorem searchRows_mem (papers : List PaperObj) (terms : List Str) (j : Json) :
    j ∈ searchRows papers terms ↔
      ∃ p ∈ papers, 0 < (count_terms (mkHaystack p) terms).1
        ∧ j = searchRow p (count_terms (mkHaystack p) terms).1
            (count_terms (mkHaystack p) terms).2 := by
  rw [searchRows_eq_filterMap, List.mem_filterMap]
  constructor
  · rintro ⟨p, hp, hf⟩
    by_cases h0 : 0 < (count_terms (mkHaystack p) terms).1
    · rw [if_pos h0] at hf
      exact ⟨p, hp, h0, (Option.some_inj.mp hf).symm⟩
    · rw [if_neg h0] at hf
      exact absurd hf (by simp)
  · rintro ⟨p, hp, h0, rfl⟩
    exact ⟨p, hp, by rw [if_pos h0]⟩

/-- C5: for every corpus and every non-empty term list, the search loop
equals a filterMap over the corpus in iteration order — a paper
contributes a row iff its match score is positive, and rows are never
re-sorted — and membership in the results is characterized accordingly. -/
theorem search_results_order (papers : List PaperObj) (terms : List Str)
    (_hne : terms ≠ []) :
    searchRows papers terms
      = papers.filterMap (fun p =>
          if 0 < (count_terms (mkHaystack p) terms).1
          then some (searchRow p (count_terms (mkHaystack p) terms).1
              (count_terms (mkHaystack p) terms).2)
          else none)
    ∧ ∀ j : Json, j ∈ searchRows papers terms ↔
        ∃ p ∈ papers, 0 < (count_terms (mkHaystack p) terms).1
          ∧ j = searchRow p (count_terms (mkHaystack p) terms).1
              (count_terms (mkHaystack p) terms).2 :=
  ⟨searchRows_eq_filterMap papers terms, fun j => searchRows_mem papers terms j⟩

theorem search_results_order_witness :
    ([chars "deep"] : List Str) ≠ []
    ∧ (searchRows [samplePaper] [chars "deep"]
        = [samplePaper].filterMap (fun p =>
            if 0 < (count_terms (mkHaystack p) [chars "deep"]).1
            then some (searchRow p (count_terms (mkHaystack p) [chars "deep"]).1
                (count_terms (mkHaystack p) [chars "deep"]).2)
            else none)
      ∧ ∀ j : Json, j ∈ searchRows [samplePaper] [chars "deep"] ↔
          ∃ p ∈ [samplePaper], 0 < (count_terms (mkHaystack p) [chars "deep"]).1
            ∧ j = searchRow p (count_terms (mkHaystack p) [chars "deep"]).1
                (count_terms (mkHaystack p) [chars "deep"]).2) :=
  ⟨by simp, search_results_order [samplePaper] [chars "deep"] (by simp)⟩

theorem countTermsAux_flagT (hay : Haystack) :
    ∀ (ts : List Str) (n : Nat) (bt ba : Bool),
      (countTermsAux hay ts n bt ba).2.1
        = (bt || ts.any (fun t => decide (0 < countOccur t hay.title))) := by
  intro ts
  induction ts with
  | nil => intro n bt ba; simp [countTermsAux]
  | cons t ts ih =>
    intro n bt ba
    rw [countTermsAux, ih]
    simp [Bool.or_assoc]

theorem countTermsAux_flagA (hay : Haystack) :
    ∀ (ts : List Str) (n : Nat) (bt ba : Bool),
      (countTermsAux hay ts n bt ba).2.2
        = (ba || ts.any (fun t => decide (0 < countOccur t hay.abstract))) := by
  intro ts
  induction ts with
  | nil => intro n bt ba; simp [countTermsAux]
  | cons t ts ih =>
    intro n bt ba
    rw [countTermsAux, ih]
    simp [Bool.or_assoc]

theorem natSum_pos (l : List Nat) : 0 < l.sum ↔ ∃ x ∈ l, 0 < x := by
  induction l with
  | nil => simp
  | cons a l ih =>
    simp only [List.sum_cons, List.mem_cons]
    constructor
    · intro h
      by_cases ha : 0 < a
      · exact ⟨a, Or.inl rfl, ha⟩
      · obtain ⟨x, hx, hx0⟩ := ih.mp (by omega)
        exact ⟨x, Or.inr hx, hx0⟩
    · rintro ⟨x, (rfl | hx), hx0⟩
      · omega
      · have := ih.mpr ⟨x, hx, hx0⟩
        omega

theorem count_terms_pos_iff (hay : Haystack) (terms : List Str) :
    0 < (count_terms hay terms).1 ↔ (count_terms hay terms).2 ≠ [] := by
  have h1 : (count_terms hay terms).1 = (countTermsAux hay terms 0 false false).1 := rfl
  have h2 : (count_terms hay terms).2
      = (if (countTermsAux hay terms 0 false false).2.1 then [chars "title"] else [])
        ++ (if (countTermsAux hay terms 0 false false).2.2 then [chars "abstract"] else []) :=
    rfl
  rw [h1, h2, countTermsAux_total, countTermsAux_flagT, countTermsAux_flagA]
  simp only [Bool.false_or, Nat.zero_add]
  rw [natSum_pos]
  constructor
  · rintro ⟨x, hx, hx0⟩
    obtain ⟨t, ht, rfl⟩ := List.mem_map.mp hx
    by_cases hT : 0 < countOccur t hay.title
    · have ha : terms.any (fun t => decide (0 < countOccur t hay.title)) = true :=
        List.any_eq_true.mpr ⟨t, ht, by simpa using hT⟩
      rw [ha]
      simp
    · have hA : 0 < countOccur t hay.abstract := by omega
      have ha : terms.any (fun t => decide (0 < countOccur t hay.abstract)) = true :=
        List.any_eq_true.mpr ⟨t, ht, by simpa using hA⟩
      rw [ha]
      cases terms.any (fun t => decide (0 < countOccur t hay.title)) <;> simp
  · intro hne
    by_cases hT : terms.any (fun t => decide (0 < countOccur t hay.title)) = true
    · obtain ⟨t, ht, hdec⟩ := List.any_eq_true.mp hT
      exact ⟨_, List.mem_map.mpr ⟨t, ht, rfl⟩, by simp at hdec; omega⟩
    · by_cases hA : terms.any (fun t => decide (0 < countOccur t hay.abstract)) = true
      · obtain ⟨t, ht, hdec⟩ := List.any_eq_true.mp hA
        exact ⟨_, List.mem_map.mpr ⟨t, ht, rfl⟩, by simp at hdec; omega⟩
      · exfalso
        apply hne
        simp only [Bool.not_eq_true] at hT hA
        rw [hT, hA]
        rfl

/-- C10: for every haystack and every term list, the total returned by
`count_terms` is positive iff the returned `matches_in` list is non-empty;
consequently every row the search loop emits carries a non-empty
`matches_in`. -/
theorem count_terms_total_matches_in (hay : Haystack) (terms : List Str) :
    (0 < (count_terms hay terms).1 ↔ (count_terms hay terms).2 ≠ [])
    ∧ ∀ (papers : List PaperObj) (j : Json), j ∈ searchRows papers terms →
        ∃ p ∈ papers, (count_terms (mkHaystack p) terms).2 ≠ []
          ∧ j = searchRow p (count_terms (mkHaystack p) terms).1
              (count_terms (mkHaystack p) terms).2 := by
  refine ⟨count_terms_pos_iff hay terms, ?_⟩
  intro papers j hj
  obtain ⟨p, hp, h0, rfl⟩ := (searchRows_mem papers terms j).mp hj
  exact ⟨p, hp, (count_terms_pos_iff (mkHaystack p) terms).mp h0, rfl⟩

theorem count_terms_total_matches_in_witness :
    (0 < (count_terms ⟨chars "Neural nets", chars ""⟩ [chars "nets"]).1
      ↔ (count_terms ⟨chars "Neural nets", chars ""⟩ [chars "nets"]).2 ≠ [])
    ∧ ∀ (papers : List PaperObj) (j : Json), j ∈ searchRows papers [chars "nets"] →
        ∃ p ∈ papers, (count_terms (mkHaystack p) [chars "nets"]).2 ≠ []
          ∧ j = searchRow p (count_terms (mkHaystack p) [chars "nets"]).1
              (count_terms (mkHaystack p) [chars "nets"]).2 :=
  count_terms_total_matches_in ⟨chars "Neural nets", chars ""⟩ [chars "nets"]

/-! The top-10 frequency ranking (claim C7). -/

theorem strLt_irrefl (s : Str) : strLt s s = false := by
  induction s with
  | nil => rfl
  | cons a as ih => simp [strLt, ih, lt_irrefl]

theorem strLt_trans (a : Str) :
    ∀ b c : Str, strLt a b = true → strLt b c = true → strLt a c = true := by
  induction a with
  | nil =>
    intro b c hab hbc
    cases b with
    | nil => simp [strLt] at hab
    | cons y ys =>
      cases c with
      | nil => simp [strLt] at hbc
      | cons z zs => simp [strLt]
  | cons x xs ih =>
    intro b c hab hbc
    cases b with
    | nil => simp [strLt] at hab
    | cons y ys =>
      cases c with
      | nil => simp [strLt] at hbc
      | cons z zs =>
        simp only [strLt, Bool.or_eq_true, Bool.and_eq_true, decide_eq_true_eq] at *
        rcases hab with hab | ⟨rfl, hab⟩
        · rcases hbc with hbc | ⟨rfl, _⟩
          · exact Or.inl (lt_trans hab hbc)
          · exact Or.inl hab
        · rcases hbc with hbc | ⟨rfl, hbc⟩
          · exact Or.inl hbc
          · exact Or.inr ⟨rfl, ih ys zs hab hbc⟩

theorem strLt_trichotomy (a : Str) :
    ∀ b : Str, strLt a b = true ∨ a = b ∨ strLt b a = true := by
  induction a with
  | nil =>
    intro b
    cases b with
    | nil => exact Or.inr (Or.inl rfl)
    | cons y ys => exact Or.inl (by simp [strLt])
  | cons x xs ih =>
    intro b
    cases b with
    | nil => exact Or.inr (Or.inr (by simp [strLt]))
    | cons y ys =>
      rcases lt_trichotomy x y with h | rfl | h
      · exact Or.inl (by simp [strLt, h])
      · rcases ih ys with h' | rfl | h'
        · exact Or.inl (by simp [strLt, h'])
        · exact Or.inr (Or.inl rfl)
        · exact Or.inr (Or.inr (by simp [strLt, h']))
      · exact Or.inr (Or.inr (by simp [strLt, h]))

theorem keyLt_irrefl (a : Str × Nat) : keyLt a a = false := by
  simp [keyLt, strLt_irrefl, lt_irrefl]

theorem keyLt_trans (a b c : Str × Nat) (hab : keyLt a b = true)
    (hbc : keyLt b c = true) : keyLt a c = true := by
  simp only [keyLt, Bool.or_eq_true, Bool.and_eq_true, decide_eq_true_eq] at *
  rcases hab with hab | ⟨he, hab⟩
  · rcases hbc with hbc | ⟨he', _⟩
    · exact Or.inl (by omega)
    · exact Or.inl (by omega)
  · rcases hbc with hbc | ⟨he', hbc⟩
    · exact Or.inl (by omega)
    · exact Or.inr ⟨by omega, strLt_trans _ _ _ hab hbc⟩

theorem keyLt_asymm (a b : Str × Nat) (hab : keyLt a b = true)
    (hba : keyLt b a = true) : False := by
  have := keyLt_trans a b a hab hba
  rw [keyLt_irrefl] at this
  exact absurd this (by simp)

theorem keyLt_eq_false_iff (a b : Str × Nat) :
    keyLt a b = false ↔ (¬ b.2 < a.2 ∧ (a.2 = b.2 → strLt a.1 b.1 = false)) := by
  simp only [keyLt, Bool.or_eq_false_iff, Bool.and_eq_false_iff,
    decide_eq_false_iff_not]
  constructor
  · rintro ⟨h1, h2⟩
    refine ⟨h1, fun he => ?_⟩
    rcases h2 with h2 | h2
    · exact absurd he h2
    · exact h2
  · rintro ⟨h1, h2⟩
    refine ⟨h1, ?_⟩
    by_cases he : a.2 = b.2
    · exact Or.inr (h2 he)
    · exact Or.inl he

theorem keyLe_total (a b : Str × Nat) : keyLe a b = true ∨ keyLe b a = true := by
  by_cases h1 : keyLt b a = true
  · right
    have h2 : keyLt a b = false := by
      by_contra hc
      rw [Bool.not_eq_false] at hc
      exact keyLt_asymm a b hc h1
    simp [keyLe, h2]
  · left
    rw [Bool.not_eq_true] at h1
    simp [keyLe, h1]

theorem keyLe_trans (a b c : Str × Nat) (hab : keyLe a b = true)
    (hbc : keyLe b c = true) : keyLe a c = true := by
  simp only [keyLe, Bool.not_eq_true'] at *
  rw [keyLt_eq_false_iff] at hab hbc ⊢
  obtain ⟨h1, h2⟩ := hab
  obtain ⟨h3, h4⟩ := hbc
  refine ⟨by omega, fun he => ?_⟩
  have heq1 : b.2 = a.2 := by omega
  have heq2 : c.2 = b.2 := by omega
  have hba := h2 heq1
  have hcb := h4 heq2
  by_contra hcont
  rw [Bool.not_eq_false] at hcont
  rcases strLt_trichotomy a.1 b.1 with h | h | h
  · rcases strLt_trichotomy b.1 c.1 with h' | h' | h'
    · have hx := strLt_trans _ _ _ (strLt_trans _ _ _ h h') hcont
      rw [strLt_irrefl] at hx
      simp at hx
    · rw [h'] at h
      have hx := strLt_trans _ _ _ h hcont
      rw [strLt_irrefl] at hx
      simp at hx
    · rw [hcb] at h'
      simp at h'
  · rcases strLt_trichotomy b.1 c.1 with h' | h' | h'
    · rw [← h] at h'
      have hx := strLt_trans _ _ _ h' hcont
      rw [strLt_irrefl] at hx
      simp at hx
    · rw [← h', ← h, strLt_irrefl] at hcont
      simp at hcont
    · rw [hcb] at h'
      simp at h'
  · rw [hba] at h
    simp at h

theorem perm_insertSorted (x : Str × Nat) :
    ∀ l : List (Str × Nat), (insertSorted x l).Perm (x :: l) := by
  intro l
  induction l with
  | nil => exact List.Perm.refl _
  | cons y ys ih =>
    by_cases h : keyLe x y = true
    · rw [insertSorted, if_pos h]
    · rw [insertSorted, if_neg h]
      exact (ih.cons y).trans (List.Perm.swap x y ys)

theorem perm_sortFreq (l : List (Str × Nat)) : (sortFreq l).Perm l := by
  induction l with
  | nil => exact List.Perm.refl _
  | cons a l ih =>
    exact (perm_insertSorted a (sortFreq l)).trans (ih.cons a)

theorem pairwise_insertSorted (x : Str × Nat) (l : List (Str × Nat))
    (h : l.Pairwise (fun a b => keyLe a b = true)) :
    (insertSorted x l).Pairwise (fun a b => keyLe a b = true) := by
  induction l with
  | nil => simp [insertSorted]
  | cons y ys ih =>
    rw [List.pairwise_cons] at h
    obtain ⟨h1, h2⟩ := h
    by_cases hxy : keyLe x y = true
    · rw [insertSorted, if_pos hxy, List.pairwise_cons]
      refine ⟨?_, List.pairwise_cons.mpr ⟨h1, h2⟩⟩
      intro z hz
      rcases List.mem_cons.mp hz with rfl | hz
      · exact hxy
      · exact keyLe_trans x y z hxy (h1 z hz)
    · rw [insertSorted, if_neg hxy, List.pairwise_cons]
      refine ⟨?_, ih h2⟩
      intro z hz
      have hz' := (perm_insertSorted x ys).mem_iff.mp hz
      rcases List.mem_cons.mp hz' with rfl | hz'
      · rcases keyLe_total z y with h | h
        · exact absurd h hxy
        · exact h
      · exact h1 z hz'

theorem pairwise_sortFreq (l : List (Str × Nat)) :
    (sortFreq l).Pairwise (fun a b => keyLe a b = true) := by
  induction l with
  | nil => simp [sortFreq]
  | cons a l ih => exact pairwise_insertSorted a (sortFreq l) ih

theorem mem_keys_dictIncr (m : List (Str × Nat)) (w x : Str)
    (h : x ∈ (dictIncr m w).map Prod.fst) : x ∈ m.map Prod.fst ∨ x = w := by
  induction m with
  | nil => simpa [dictIncr] using h
  | cons kn rest ih =>
    obtain ⟨k, n⟩ := kn
    by_cases hk : k = w
    · rw [dictIncr, if_pos hk] at h
      simp only [List.map_cons, List.mem_cons] at h ⊢
      tauto
    · rw [dictIncr, if_neg hk] at h
      simp only [List.map_cons, List.mem_cons] at h ⊢
      rcases h with rfl | h
      · tauto
      · rcases ih h with h | h
        · tauto
        · tauto

theorem nodup_keys_dictIncr (m : List (Str × Nat)) (w : Str)
    (h : (m.map Prod.fst).Nodup) : ((dictIncr m w).map Prod.fst).Nodup := by
  induction m with
  | nil => simp [dictIncr]
  | cons kn rest ih =>
    obtain ⟨k, n⟩ := kn
    simp only [List.map_cons, List.nodup_cons] at h
    obtain ⟨hk, hrest⟩ := h
    by_cases hkw : k = w
    · rw [dictIncr, if_pos hkw]
      simp only [List.map_cons, List.nodup_cons]
      exact ⟨hk, hrest⟩
    · rw [dictIncr, if_neg hkw]
      simp only [List.map_cons, List.nodup_cons]
      refine ⟨?_, ih hrest⟩
      intro hmem
      rcases mem_keys_dictIncr rest w k hmem with h | h
      · exact hk h
      · exact hkw h

theorem nodup_keys_foldl_dictIncr (ws : List Str) :
    ∀ m : List (Str × Nat), (m.map Prod.fst).Nodup →
      ((ws.foldl dictIncr m).map Prod.fst).Nodup := by
  induction ws with
  | nil => intro m h; exact h
  | cons w ws ih =>
    intro m h
    exact ih (dictIncr m w) (nodup_keys_dictIncr m w h)

theorem nodup_keys_computeFreq (papers : List PaperObj) :
    ((computeFreq papers).map Prod.fst).Nodup := by
  have hgen : ∀ (ps : List PaperObj) (m : List (Str × Nat)), (m.map Prod.fst).Nodup →
      ((ps.foldl (fun m p => (abstractTokens p).foldl dictIncr m) m).map Prod.fst).Nodup := by
    intro ps
    induction ps with
    | nil => intro m h; exact h
    | cons p ps ih =>
      intro m h
      exact ih _ (nodup_keys_foldl_dictIncr (abstractTokens p) m h)
  exact hgen papers [] (by simp)

theorem keyLt_of_keyLe_ne (a b : Str × Nat) (hle : keyLe a b = true)
    (hne : a.1 ≠ b.1) : keyLt a b = true := by
  simp only [keyLe, Bool.not_eq_true'] at hle
  rw [keyLt_eq_false_iff] at hle
  obtain ⟨h1, h2⟩ := hle
  simp only [keyLt, Bool.or_eq_true, Bool.and_eq_true, decide_eq_true_eq]
  by_cases he : b.2 < a.2
  · exact Or.inl he
  · have heq : a.2 = b.2 := by omega
    refine Or.inr ⟨heq, ?_⟩
    rcases strLt_trichotomy a.1 b.1 with h | h | h
    · exact h
    · exact absurd h hne
    · rw [h2 heq.symm] at h
      simp at h

/-- C7: the top-10 list is the 10-prefix of the corpus word-frequency map
sorted by frequency descending with ties broken by word ascending: the
sorted list is a permutation of the frequency map, the emitted prefix is
strictly ordered under that key (so of two equally frequent words the
lexicographically smaller ranks first), and its length is the vocabulary
size capped at 10. -/
theorem stats_top10_sorted (papers : List PaperObj) :
    top10 papers = (sortFreq (computeFreq papers)).take 10
    ∧ (sortFreq (computeFreq papers)).Perm (computeFreq papers)
    ∧ (top10 papers).Pairwise (fun a b => keyLt a b = true)
    ∧ (top10 papers).length = min 10 (computeFreq papers).length := by
  refine ⟨rfl, perm_sortFreq _, ?_, ?_⟩
  · have hsorted := pairwise_sortFreq (computeFreq papers)
    have hnodup : ((computeFreq papers).map Prod.fst).Nodup := nodup_keys_computeFreq papers
    have hnodup2 : ((sortFreq (computeFreq papers)).map Prod.fst).Nodup :=
      ((perm_sortFreq (computeFreq papers)).map Prod.fst).symm.nodup hnodup
    have hpnodup : (sortFreq (computeFreq papers)).Pairwise (fun a b => a.1 ≠ b.1) :=
      List.pairwise_map.mp hnodup2
    have hstrict : (sortFreq (computeFreq papers)).Pairwise
        (fun a b => keyLt a b = true) :=
      (hsorted.and hpnodup).imp (fun h => keyLt_of_keyLe_ne _ _ h.1 h.2)
    exact hstrict.sublist (List.take_sublist 10 _)
  · rw [top10, List.length_take, (perm_sortFreq (computeFreq papers)).length_eq]

/-! Startup and the data-unavailable path (claims C3 and C4). -/

/-- C3 (counterexample): a corpus file that exists but is not valid JSON
raises `JSONDecodeError`, which `load_json` does not catch (it catches
only `FileNotFoundError`), so `DataStore` construction at module import
fails and the process dies instead of starting the server. -/
theorem load_unparseable_cex :
    initStore FileState.invalid = Except.error "json.decoder.JSONDecodeError" := rfl

/-- C3 (amended): if the corpus file is missing, the process survives: the
store is constructed empty and every GET request, whatever its path, is
answered 500 with body `{"error": "papers.json not found or empty"}`.  (An
unparseable file instead aborts startup, see the counterexample.) -/
theorem missing_corpus_500 :
    initStore FileState.missing = Except.ok ⟨[], []⟩
    ∧ ∀ raw : Str, do_GET ⟨[], []⟩ raw = ⟨500, dataUnavailableBody⟩ :=
  ⟨rfl, fun _ => rfl⟩

theorem pyIterate_pyOrDoc_arr (l : List Json) :
    pyIterate (pyOrDoc (some (.arr l)) (.arr [])) = .ok l := by
  cases l <;> rfl

theorem collectPapers_map_obj (ps : List PaperObj) :
    collectPapers (ps.map Json.obj) = .ok ps := by
  induction ps with
  | nil => rfl
  | cons p rest ih =>
    simp only [List.map_cons, collectPapers, asPaperObj, ih]
    rfl

theorem jGetOpt_append_ne (p : PaperObj) (k : Str) (v : Json) (k' : Str)
    (h : k' ≠ k) : jGetOpt (p ++ [(k, v)]) k' = jGetOpt p k' := by
  induction p with
  | nil => simp only [List.nil_append, jGetOpt, if_neg (Ne.symm h)]
  | cons kv rest ih =>
    obtain ⟨k0, v0⟩ := kv
    by_cases h0 : k0 = k'
    · simp [jGetOpt, h0]
    · simp [jGetOpt, h0, ih]

/-- C4 (amended): the persisted input accepted at load time is a single
JSON document that is a bare array of paper objects; the store's ordered
paper sequence is exactly that array, and unrecognized fields of a stored
element are ignored by the listing, detail and search readers.  An object
containing a `papers` array is NOT unwrapped: the startup loop iterates
the object's keys and raises, so that shape is never served (see the
counterexample). -/
theorem bare_array_load (ps : List PaperObj) (p : PaperObj) (k : Str) (v : Json)
    (hk : k ∉ recognizedKeys) :
    initStore (.content (.arr (ps.map Json.obj))) = .ok ⟨ps, buildIndex ps⟩
    ∧ paperRow (p ++ [(k, v)]) = paperRow p
    ∧ paperDetail (p ++ [(k, v)]) = paperDetail p
    ∧ mkHaystack (p ++ [(k, v)]) = mkHaystack p
    ∧ abstractTokens (p ++ [(k, v)]) = abstractTokens p := by
  have hne : ∀ k' ∈ recognizedKeys, k' ≠ k := by
    intro k' hk' he
    exact hk (he ▸ hk')
  have e1 := jGetOpt_append_ne p k v (chars "arxiv_id") (hne _ (by simp [recognizedKeys]))
  have e2 := jGetOpt_append_ne p k v (chars "id") (hne _ (by simp [recognizedKeys]))
  have e3 := jGetOpt_append_ne p k v (chars "title") (hne _ (by simp [recognizedKeys]))
  have e4 := jGetOpt_append_ne p k v (chars "authors") (hne _ (by simp [recognizedKeys]))
  have e5 := jGetOpt_append_ne p k v (chars "abstract") (hne _ (by simp [recognizedKeys]))
  have e6 := jGetOpt_append_ne p k v (chars "categories") (hne _ (by simp [recognizedKeys]))
  have e7 := jGetOpt_append_ne p k v (chars "published") (hne _ (by simp [recognizedKeys]))
  have e8 := jGetOpt_append_ne p k v (chars "updated") (hne _ (by simp [recognizedKeys]))
  refine ⟨?_, ?_, ?_, ?_, ?_⟩
  · simp only [initStore, load_json, bind, Except.bind, pyIterate_pyOrDoc_arr,
      collectPapers_map_obj]
    rfl
  · simp [paperRow, rowAid, jGet, jGetD, e1, e2, e3, e4, e6]
  · simp [paperDetail, rowAid, abstract_stats, jGet, jGetD,
      e1, e2, e3, e4, e5, e6, e7, e8]
  · simp [mkHaystack, jGetD, e3, e5]
  · simp [abstractTokens, jGetD, e5]

theorem bare_array_load_witness :
    (chars "junk" ∉ recognizedKeys)
    ∧ (initStore (.content (.arr ([samplePaper].map Json.obj)))
        = .ok ⟨[samplePaper], buildIndex [samplePaper]⟩
      ∧ paperRow (samplePaper ++ [(chars "junk", Json.num 1)]) = paperRow samplePaper
      ∧ paperDetail (samplePaper ++ [(chars "junk", Json.num 1)]) = paperDetail samplePaper
      ∧ mkHaystack (samplePaper ++ [(chars "junk", Json.num 1)]) = mkHaystack samplePaper
      ∧ abstractTokens (samplePaper ++ [(chars "junk", Json.num 1)])
          = abstractTokens samplePaper) :=
  ⟨by decide,
   bare_array_load [samplePaper] samplePaper (chars "junk") (Json.num 1) (by decide)⟩

/-- C4 (counterexample): on the document `{"papers": [{"title": "t"}]}`
the startup loop iterates the wrapping object's keys, calls `.get` on the
string key `"papers"` and raises `AttributeError`, so the `papers` array
is never unwrapped or served. -/
theorem papers_object_shape_cex :
    initStore (.content (.obj [(chars "papers",
        .arr [Json.obj [(chars "title", Json.str (chars "t"))]])]))
      = Except.error "AttributeError" := rfl

/-! Request routing (claims C6 and C9). -/

theorem takeWhile_append_all (p : Char → Bool) (l₁ l₂ : Str)
    (h : ∀ c ∈ l₁, p c = true) : (l₁ ++ l₂).takeWhile p = l₁ ++ l₂.takeWhile p := by
  induction l₁ with
  | nil => simp
  | cons a l ih =>
    have ha := h a (List.mem_cons_self _ _)
    simp [List.takeWhile_cons, ha, ih (fun c hc => h c (List.mem_cons_of_mem _ hc))]

theorem dropWhile_append_all (p : Char → Bool) (l₁ l₂ : Str)
    (h : ∀ c ∈ l₁, p c = true) : (l₁ ++ l₂).dropWhile p = l₂.dropWhile p := by
  induction l₁ with
  | nil => simp
  | cons a l ih =>
    have ha := h a (List.mem_cons_self _ _)
    simp [List.dropWhile_cons, ha, ih (fun c hc => h c (List.mem_cons_of_mem _ hc))]

theorem preFrag_search (query : Str) :
    preFrag (chars "/search?" ++ query) = chars "/search?" ++ preFrag query :=
  takeWhile_append_all _ _ _ (by decide)

theorem pathOf_search (query : Str) :
    pathOf (chars "/search?" ++ query) = chars "/search" := by
  rw [pathOf, preFrag_search]
  have h : chars "/search?" ++ preFrag query = chars "/search" ++ '?' :: preFrag query := rfl
  rw [h, takeWhile_append_all _ _ _ (by decide)]
  have h2 : ('?' :: preFrag query).takeWhile (fun c => !decide (c = '?')) = [] := rfl
  rw [h2, List.append_nil]

theorem queryOf_search (query : Str) (hfrag : '#' ∉ query) :
    queryOf (chars "/search?" ++ query) = query := by
  rw [queryOf, preFrag_search]
  have hq : preFrag query = query := by
    rw [preFrag, List.takeWhile_eq_self_iff]
    intro c hc
    simp only [Bool.not_eq_eq_eq_not, Bool.not_true, decide_eq_false_iff_not]
    intro he
    exact hfrag (he ▸ hc)
  rw [hq]
  have h : chars "/search?" ++ query = chars "/search" ++ '?' :: query := rfl
  rw [h, dropWhile_append_all _ _ _ (by decide)]
  have h2 : ('?' :: query).dropWhile (fun c => !decide (c = '?')) = '?' :: query := rfl
  rw [h2]
  rfl

/-- C6: on the search route, a `q` that is empty after trimming yields 400
with the missing-parameter body; a non-empty `q` whose tokenization is
empty yields 400 with the malformed-query body; and the two bodies are
distinct, so the conditions are never merged. -/
theorem search_query_errors (store : DataStore) (h : store.existsData = true)
    (query : Str) (hfrag : '#' ∉ query) :
    (pyStrip (firstQValue query) = [] →
      do_GET store (chars "/search?" ++ query) = ⟨400, missingQBody⟩)
    ∧ (pyStrip (firstQValue query) ≠ [] →
        tokenize (some (pyStrip (firstQValue query))) = [] →
        do_GET store (chars "/search?" ++ query) = ⟨400, malformedQBody⟩)
    ∧ missingQBody ≠ malformedQBody := by
  have hpath := pathOf_search query
  have hparts : routeParts (chars "/search?" ++ query) = [chars "search"] := by
    rw [routeParts, hpath]
    rfl
  have hq := queryOf_search query hfrag
  have hnp : ¬ isPapersRoute (chars "/search?" ++ query) := by
    rintro ⟨h1, _⟩
    rw [hpath] at h1
    exact absurd h1 (by decide)
  have hnd : ¬ isPaperDetailRoute (chars "/search?" ++ query) := by
    rintro ⟨h1, _⟩
    rw [hparts] at h1
    simp at h1
  have hs : isSearchRoute (chars "/search?" ++ query) := ⟨hpath, by rw [hparts]; rfl⟩
  have hred : do_GET store (chars "/search?" ++ query) = searchResponse store query := by
    rw [do_GET, if_neg (by simp [h]), if_neg hnp, if_neg hnd, if_pos hs, hq]
  have hbodies : missingQBody ≠ malformedQBody := by
    intro he
    simp only [missingQBody, malformedQBody, errorBody, Json.obj.injEq,
      List.cons.injEq, Prod.mk.injEq, Json.str.injEq, and_true, true_and] at he
    exact absurd he (by decide)
  refine ⟨?_, ?_, hbodies⟩
  · intro hqe
    simp [hred, searchResponse, hqe]
  · intro hqne htok
    simp [hred, searchResponse, htok, List.isEmpty_iff, hqne]

theorem search_query_errors_witness :
    (DataStore.existsData sampleStore = true
      ∧ '#' ∉ chars "q=" ∧ '#' ∉ chars "q=%2C%2C%2C")
    ∧ do_GET sampleStore (chars "/search?" ++ chars "q=") = ⟨400, missingQBody⟩
    ∧ do_GET sampleStore (chars "/search?" ++ chars "q=%2C%2C%2C")
        = ⟨400, malformedQBody⟩ :=
  ⟨⟨rfl, by decide, by decide⟩,
   (search_query_errors sampleStore rfl (chars "q=") (by decide)).1 (by decide),
   (search_query_errors sampleStore rfl (chars "q=%2C%2C%2C") (by decide)).2.1
     (by decide) (by decide)⟩

/-- C9 (amended): with a non-empty corpus, a GET request whose path
matches none of the four routes is answered 404 with the
endpoint-not-found body, and a GET for an unknown paper id is answered 404
with a body echoing the requested id under `arxiv_id`; a request whose
method is not GET never reaches this repository's code: the standard
library's dispatcher answers it with status 501, not 404. -/
theorem routing_not_found (store : DataStore) (raw : Str)
    (h : store.existsData = true) :
    (¬ isPapersRoute raw → ¬ isPaperDetailRoute raw → ¬ isSearchRoute raw →
      ¬ isStatsRoute raw → do_GET store raw = ⟨404, endpointNotFoundBody⟩)
    ∧ (∀ aid : Str, isPaperDetailRoute raw → requestedId raw = aid →
        lookupAssoc store.by_id aid = none →
        do_GET store raw = ⟨404, unknownPaperBody aid⟩)
    ∧ (∀ m raw2 : Str, m ≠ chars "GET" → handle store m raw2 = ⟨501, Json.null⟩) := by
  refine ⟨?_, ?_, ?_⟩
  · intro h1 h2 h3 h4
    rw [do_GET, if_neg (by simp [h]), if_neg h1, if_neg h2, if_neg h3, if_neg h4]
  · intro aid hd hid hlook
    have hnp : ¬ isPapersRoute raw := by
      rintro ⟨_, hlen⟩
      obtain ⟨hlen2, _⟩ := hd
      omega
    rw [do_GET, if_neg (by simp [h]), if_neg hnp, if_pos hd, hid, hlook]
  · intro m raw2 hm
    rw [handle, if_neg hm]

theorem routing_not_found_witness :
    DataStore.existsData sampleStore = true
    ∧ do_GET sampleStore (chars "/nope") = ⟨404, endpointNotFoundBody⟩
    ∧ do_GET sampleStore (chars "/papers/zzz") = ⟨404, unknownPaperBody (chars "zzz")⟩
    ∧ handle sampleStore (chars "POST") (chars "/stats") = ⟨501, Json.null⟩ :=
  ⟨rfl,
   (routing_not_found sampleStore (chars "/nope") rfl).1
     (by decide) (by decide) (by decide) (by decide),
   (routing_not_found sampleStore (chars "/papers/zzz") rfl).2.1
     (chars "zzz") (by decide) (by decide) rfl,
   (routing_not_found sampleStore (chars "/papers/zzz") rfl).2.2
     (chars "POST") (chars "/stats") (by decide)⟩

/-- C9 (counterexample): a POST to a recognized path is answered 501 by
the standard library's method dispatch (the handler defines only
`do_GET`), not 404 as the claim states for non-GET methods. -/
theorem non_get_method_cex :
    handle sampleStore (chars "POST") (chars "/papers") = ⟨501, Json.null⟩
    ∧ (501 : Nat) ≠ 404 :=
  ⟨rfl, by decide⟩
